import Mathlib

/-!
Verification of the api-proxy reverse proxy (src/main.rs) against its
natural-language specification.

The development shallowly embeds the routing-and-forwarding pipeline:
the static route table `API_MAPPING`, the header allowlist
`ALLOWED_HEADERS`, prefix resolution (`extract_prefix_and_rest`),
target-URL construction (`build_target_url`, on top of a model of the
`url` crate's WHATWG relative-reference resolution), header filtering
(`process_headers`), response translation (`handle_proxy_response`),
the request handler (`proxy_request` / `respond`) and the actix route
registration in `main` (`appDispatch`).

Header values are modelled as byte lists (`List Nat`) because the
transports' header-value encodings can reject some byte sequences
(`HeaderValue::to_str`); strings are modelled by their character lists.
-/

-- ## Basic string helpers (models of the Rust `str` operations used)

/-- Model of Rust `str::starts_with` for string prefixes.  Byte-prefix of
valid UTF-8 agrees with character-list prefix. -/
def strStartsWith (s p : String) : Bool := p.data.isPrefixOf s.data

/-- Model of Rust byte slicing `&s[p.len()..]` when `p` is a prefix of `s`:
dropping the prefix's characters. -/
def strDrop (s : String) (n : Nat) : String := String.mk (s.data.drop n)

/-- Model of ASCII lowercasing as performed by `str::to_lowercase` /
`HeaderName` construction on header names. -/
def lowerStr (s : String) : String := String.mk (s.data.map Char.toLower)

/-- The bytes of an ASCII string literal, used for header values and bodies. -/
def strBytes (s : String) : List Nat := s.data.map Char.toNat

/-- Model of Rust `trim_start_matches('/')`: drop every leading slash. -/
def trimLeadingSlashes (s : String) : String :=
  String.mk (s.data.dropWhile (fun c => c == '/'))

-- ## Static configuration (main.rs lines 42-82)

/-- The `API_MAPPING` table from main.rs, in source insertion order.
The source stores it in a `HashMap`; only membership/lookup is used. -/
def API_MAPPING : List (String × String) :=
  [("/anthropic", "https://api.anthropic.com"),
   ("/claude", "https://api.anthropic.com"),
   ("/cerebras", "https://api.cerebras.ai"),
   ("/cohere", "https://api.cohere.ai"),
   ("/discord", "https://discord.com/api"),
   ("/fireworks", "https://api.fireworks.ai"),
   ("/gemini", "https://generativelanguage.googleapis.com"),
   ("/groq", "https://api.groq.com/openai"),
   ("/huggingface", "https://api-inference.huggingface.co"),
   ("/meta", "https://www.meta.ai/api"),
   ("/novita", "https://api.novita.ai"),
   ("/nvidia", "https://integrate.api.nvidia.com"),
   ("/oaipro", "https://api.oaipro.com"),
   ("/openai", "https://api.openai.com"),
   ("/openrouter", "https://openrouter.ai/api"),
   ("/portkey", "https://api.portkey.ai"),
   ("/reka", "https://api.reka.ai"),
   ("/telegram", "https://api.telegram.org"),
   ("/together", "https://api.together.xyz"),
   ("/xai", "https://api.x.ai"),
   ("/github", "https://api.github.com")]

/-- The configured route prefixes. -/
def mappingKeys : List String := API_MAPPING.map Prod.fst

/-- The `ALLOWED_HEADERS` set from main.rs (a `HashSet`; only membership
is used, so a list suffices). -/
def ALLOWED_HEADERS : List String :=
  ["accept", "content-type", "authorization", "x-goog-api-key",
   "x-api-key", "user-agent", "cache-control"]

-- ## Prefix resolution (extract_prefix_and_rest, main.rs lines 233-245)

/-- The route prefixes sorted by length, descending, as computed by
`sorted_paths` in `extract_prefix_and_rest`.  The source sorts the
`HashMap`'s keys at call time with `sort_by(|a, b| b.len().cmp(&a.len()))`;
ties in length cannot both match one path (two equal-length prefixes of
the same string are equal), so any length-descending order is faithful. -/
def sortedPaths : List String :=
  ["/huggingface", "/openrouter", "/anthropic", "/fireworks",
   "/cerebras", "/telegram", "/together", "/discord", "/portkey",
   "/claude", "/cohere", "/gemini", "/github", "/novita", "/nvidia",
   "/oaipro", "/openai", "/groq", "/meta", "/reka", "/xai"]

/-- The scan loop of `extract_prefix_and_rest`: first prefix in the
sorted list that is a string-prefix of the path. -/
def matchRoute : List String → String → Option String
  | [], _ => none
  | p :: ps, s => if strStartsWith s p then some p else matchRoute ps s

/-- `extract_prefix_and_rest` from main.rs: longest configured prefix and
the remainder of the path after it. -/
def extract_prefix_and_rest (pathname : String) : Option (String × String) :=
  match matchRoute sortedPaths pathname with
  | some p => some (p, strDrop pathname p.length)
  | none => none

-- ## URL model (the `url` crate's WHATWG parsing, as used by the code)
--
-- `build_target_url` relies on `Url::parse` and `Url::join` from the
-- `url` crate, which implements the WHATWG URL standard.  The model
-- below embeds the parts of the basic URL parser that are reachable
-- from this program: special-scheme authority parsing, relative
-- reference resolution against an https base, path segment handling
-- with `.`/`..` collapsing, query/fragment splitting.  Percent-encoding
-- of output and host validation beyond lowercasing are not modelled;
-- no theorem below depends on inputs where they matter.

structure Url where
  scheme : String
  host : Option String
  port : Option Nat
  path : List String
  query : Option String
  fragment : Option String
  cannotBeABase : Bool
deriving DecidableEq

/-- C0 control or space, removed from the ends of parser input. -/
def isC0OrSpace (c : Char) : Bool := c.toNat ≤ 32

/-- ASCII tab or newline, removed everywhere from parser input. -/
def isTabOrNewline (c : Char) : Bool := c.toNat == 9 || c.toNat == 10 || c.toNat == 13

/-- WHATWG input preprocessing: trim C0/space from both ends, strip
tab/newline everywhere. -/
def preprocess (cs : List Char) : List Char :=
  let t := ((cs.dropWhile isC0OrSpace).reverse.dropWhile isC0OrSpace).reverse
  t.filter (fun c => !(isTabOrNewline c))

def isSchemeChar (c : Char) : Bool := c.isAlphanum || c == '+' || c == '-' || c == '.'

/-- Scheme detection: a leading ASCII alpha, scheme chars, then `:`.
Returns the lowercased scheme and the input after the colon. -/
def parseScheme (cs : List Char) : Option (String × List Char) :=
  match cs with
  | [] => none
  | c :: _ =>
    if c.isAlpha then
      let rest := cs.dropWhile isSchemeChar
      if rest.head? = some ':' then
        some (String.mk ((cs.takeWhile isSchemeChar).map Char.toLower), rest.tail)
      else none
    else none

def isSpecialScheme (s : String) : Bool :=
  s == "http" || s == "https" || s == "ws" || s == "wss" || s == "ftp" || s == "file"

/-- The single-dot path segments of the WHATWG path state. -/
def singleDotSegs : List String := [".", "%2e", "%2E"]

/-- The double-dot path segments of the WHATWG path state. -/
def dotSegs : List String :=
  ["..", ".%2e", ".%2E", "%2e.", "%2E.", "%2e%2e", "%2e%2E", "%2E%2e", "%2E%2E"]

def strIn : List String → String → Bool
  | [], _ => false
  | x :: xs, s => if s = x then true else strIn xs s

def isSingleDot (b : String) : Bool := strIn singleDotSegs b
def isDoubleDot (b : String) : Bool := strIn dotSegs b

/-- Closing a path-state buffer at a delimiter: `..` pops a segment,
`.` is dropped, otherwise the buffer becomes a segment.  `atSlash` is
true when the delimiter is `/` or `\` (then dotted buffers do not
re-append an empty segment). -/
def flushSeg (segs : List String) (buf : List Char) (atSlash : Bool) : List String :=
  let b := String.mk buf
  if isDoubleDot b then (if atSlash then segs.dropLast else segs.dropLast ++ [""])
  else if isSingleDot b then (if atSlash then segs else segs ++ [""])
  else segs ++ [b]

/-- Query state: raw query up to `#`, then the fragment. -/
def querySplit (cs : List Char) : Option String × Option String :=
  (some (String.mk (cs.takeWhile (fun c => c != '#'))),
   match cs.dropWhile (fun c => c != '#') with
   | _ :: t => some (String.mk t)
   | [] => none)

/-- The WHATWG path state for special URLs: accumulate segments, split
on `/` and `\`, collapse dot segments, hand off to query/fragment. -/
def pathLoop : List String → List Char → List Char → List String × Option String × Option String
  | segs, buf, [] => (flushSeg segs buf false, none, none)
  | segs, buf, c :: cs =>
    if c == '/' || c == '\\' then pathLoop (flushSeg segs buf true) [] cs
    else if c == '?' then
      let q := querySplit cs
      (flushSeg segs buf false, q.1, q.2)
    else if c == '#' then (flushSeg segs buf false, none, some (String.mk cs))
    else pathLoop segs (buf ++ [c]) cs

def isAuthorityDelim (c : Char) : Bool := c == '/' || c == '\\' || c == '?' || c == '#'

def defaultPort (sc : String) : Option Nat :=
  if sc == "http" || sc == "ws" then some 80
  else if sc == "https" || sc == "wss" then some 443
  else if sc == "ftp" then some 21
  else none

/-- Port digits; empty means no port, non-digits or overflow are a
parse failure.  The inner option is the parsed port. -/
def parsePortDigits (cs : List Char) : Option (Option Nat) :=
  if cs.isEmpty then some none
  else if cs.all Char.isDigit then
    let v := cs.foldl (fun n c => n * 10 + (c.toNat - 48)) 0
    if v ≤ 65535 then some (some v) else none
  else none

/-- Host and port from an authority section: userinfo before the last
`@` is dropped, the host is lowercased, a default port is elided.
An empty host is invalid for special schemes. -/
def hostPortParse (sc : String) (auth : List Char) : Option (String × Option Nat) :=
  let hp := if auth.contains '@' then (auth.reverse.takeWhile (fun c => c != '@')).reverse else auth
  let hostCs := hp.takeWhile (fun c => c != ':')
  if hostCs.isEmpty then none
  else
    let host := String.mk (hostCs.map Char.toLower)
    match hp.dropWhile (fun c => c != ':') with
    | [] => some (host, none)
    | _ :: pcs =>
      match parsePortDigits pcs with
      | none => none
      | some none => some (host, none)
      | some (some v) => if defaultPort sc = some v then some (host, none) else some (host, some v)

/-- After the authority: path start (one leading slash skipped), query
or fragment.  A special URL with no path serializes as path `/`. -/
def afterAuthority (sc : String) (host : String) (port : Option Nat) (rest : List Char) : Url :=
  match rest with
  | [] => ⟨sc, some host, port, [""], none, none, false⟩
  | '?' :: t =>
    let q := querySplit t
    ⟨sc, some host, port, [""], q.1, q.2, false⟩
  | '#' :: t => ⟨sc, some host, port, [""], none, some (String.mk t), false⟩
  | _ :: t =>
    let r := pathLoop [] [] t
    ⟨sc, some host, port, r.1, r.2.1, r.2.2, false⟩

def authorityParse (sc : String) (cs : List Char) : Option Url :=
  let auth := cs.takeWhile (fun c => !(isAuthorityDelim c))
  let rest := cs.dropWhile (fun c => !(isAuthorityDelim c))
  match hostPortParse sc auth with
  | none => none
  | some hp => some (afterAuthority sc hp.1 hp.2 rest)

/-- The special-authority-ignore-slashes state: skip leading `/` and `\`. -/
def authorityIgnoreSlashes (sc : String) (cs : List Char) : Option Url :=
  authorityParse sc (cs.dropWhile (fun c => c == '/' || c == '\\'))

/-- Non-special schemes without authority parse as an opaque
(cannot-be-a-base) path; query and fragment still split off. -/
def opaquePathParse (sc : String) (cs : List Char) : Url :=
  let p := cs.takeWhile (fun c => c != '?' && c != '#')
  match cs.dropWhile (fun c => c != '?' && c != '#') with
  | '?' :: t =>
    let q := querySplit t
    ⟨sc, none, none, [String.mk p], q.1, q.2, true⟩
  | '#' :: t => ⟨sc, none, none, [String.mk p], none, some (String.mk t), true⟩
  | _ => ⟨sc, none, none, [String.mk p], none, none, true⟩

/-- Absolute parse once a scheme has been read. -/
def parseAbsoluteWithScheme (sc : String) (t : List Char) : Option Url :=
  if isSpecialScheme sc then authorityIgnoreSlashes sc t
  else
    match t with
    | '/' :: '/' :: t2 => authorityParse sc t2
    | _ => some (opaquePathParse sc t)

/-- Model of `Url::parse` (no base): the input must carry a scheme. -/
def urlParse (s : String) : Option Url :=
  let cs := preprocess s.data
  match parseScheme cs with
  | some st => parseAbsoluteWithScheme st.1 st.2
  | none => none

/-- WHATWG shorten-a-path: drop the last segment. -/
def shortenPath (p : List String) : List String := p.dropLast

/-- Relative-path resolution: keep the base's scheme/host/port, run the
path state from the given starting segments. -/
def relPathResolve (base : Url) (startSegs : List String) (cs : List Char) : Url :=
  let r := pathLoop startSegs [] cs
  ⟨base.scheme, base.host, base.port, r.1, r.2.1, r.2.2, false⟩

/-- The relative-slash state (after one leading `/` of the reference). -/
def relativeSlash (base : Url) (t : List Char) : Option Url :=
  match t with
  | c :: t2 =>
    if c == '/' || c == '\\' then authorityIgnoreSlashes base.scheme t2
    else some (relPathResolve base [] (c :: t2))
  | [] => some (relPathResolve base [] [])

/-- The relative state: resolve a scheme-less reference against the base. -/
def relativeResolve (base : Url) (cs : List Char) : Option Url :=
  match cs with
  | [] => some ⟨base.scheme, base.host, base.port, base.path, base.query, none, false⟩
  | c :: t =>
    if c == '?' then
      let q := querySplit t
      some ⟨base.scheme, base.host, base.port, base.path, q.1, q.2, false⟩
    else if c == '#' then
      some ⟨base.scheme, base.host, base.port, base.path, base.query, some (String.mk t), false⟩
    else if c == '/' || c == '\\' then relativeSlash base t
    else some (relPathResolve base (shortenPath base.path) (c :: t))

/-- Model of `Url::join`: parse the reference with the receiver as base.
A reference carrying the base's own (special) scheme is treated as
relative unless it supplies `//` (WHATWG special relative-or-authority
state); any other scheme parses absolutely. -/
def urlJoin (base : Url) (input : String) : Option Url :=
  let cs := preprocess input.data
  match parseScheme cs with
  | some st =>
    if isSpecialScheme st.1 && st.1 == base.scheme then
      match st.2 with
      | '/' :: '/' :: t2 => authorityIgnoreSlashes st.1 t2
      | _ => relativeResolve base st.2
    else parseAbsoluteWithScheme st.1 st.2
  | none => relativeResolve base cs

/-- Model of `Url::as_str` serialization for the URLs this program
produces. -/
def renderUrl (u : Url) : String :=
  let auth := match u.host with
    | some h => "//" ++ h ++ (match u.port with | some p => ":" ++ toString p | none => "")
    | none => ""
  let pathStr :=
    if u.cannotBeABase then String.join u.path
    else u.path.foldl (fun a s => a ++ "/" ++ s) ""
  u.scheme ++ ":" ++ auth ++ pathStr
    ++ (match u.query with | some q => "?" ++ q | none => "")
    ++ (match u.fragment with | some f => "#" ++ f | none => "")

-- ## Error type and error responses (main.rs lines 88-130)

/-- The failure modes of a `reqwest` call; `ProxyError::error_response`
never inspects them. `bodyRead` is a failure of `response.bytes()` after
status and headers arrived. -/
inductive ReqwestErrorKind
  | connect
  | timeout
  | bodyRead
  | other
deriving DecidableEq

/-- `ProxyError` from main.rs. -/
inductive ProxyError
  | invalidUrl
  | reqwestError (e : ReqwestErrorKind)
deriving DecidableEq

/-- An actix HTTP response as far as this program constructs it:
status, headers, body bytes. -/
structure HttpResponseM where
  status : Nat
  headers : List (String × List Nat)
  body : List Nat
deriving DecidableEq

/-- The `content_type("application/json")` header. -/
def jsonCT : String × List Nat := ("content-type", strBytes "application/json")

/-- `ProxyError::error_response` from main.rs lines 113-130. -/
def errorResponse : ProxyError → HttpResponseM
  | .invalidUrl =>
    ⟨400, [jsonCT], strBytes "\x7b\"error\": \"Invalid target URL\", \"code\": 400\x7d"⟩
  | .reqwestError _ =>
    ⟨502, [jsonCT], strBytes "\x7b\"error\": \"Failed to process request\", \"code\": 502\x7d"⟩

-- ## build_target_url (main.rs lines 273-284)

/-- `build_target_url` from main.rs: look up the base, parse it, join
the remainder with leading slashes stripped. -/
def build_target_url (pfx rest_path : String) : Except ProxyError Url :=
  match List.lookup pfx API_MAPPING with
  | none => .error .invalidUrl
  | some b =>
    match urlParse b with
    | none => .error .invalidUrl
    | some bu =>
      match urlJoin bu (trimLeadingSlashes rest_path) with
      | none => .error .invalidUrl
      | some u => .ok u

-- ## Header filtering (process_headers, main.rs lines 287-309)

/-- Valid bytes of an http-crate header value string: visible ASCII,
space, and tab (`HeaderValue::to_str` succeeds exactly on these). -/
def headerValueToStrOk (v : List Nat) : Bool :=
  v.all (fun b => b == 9 || (32 ≤ b && b ≤ 126))

/-- Header-name token characters per the http crate (RFC 7230 tokens;
39 is the apostrophe and 96 the backtick, written by code point). -/
def tokenChar (c : Char) : Bool :=
  c.isAlphanum || "!#$%&*+-.^_|~".data.elem c || c.toNat == 39 || c.toNat == 96

/-- `HeaderName::from_str` succeeds on nonempty token strings
(normalizing to lowercase). -/
def headerNameOk (s : String) : Bool := !s.isEmpty && s.data.all tokenChar

/-- `process_headers` from main.rs: keep allowlisted headers whose value
survives `to_str`, re-encoded through reqwest's `HeaderName` (which
lowercases) and `HeaderValue` (which accepts anything `to_str` passed). -/
def process_headers (hs : List (String × List Nat)) : List (String × List Nat) :=
  (hs.filter (fun p => ALLOWED_HEADERS.contains (lowerStr p.1))).filterMap
    (fun p =>
      if headerValueToStrOk p.2 then
        if headerNameOk p.1 then some (lowerStr p.1, p.2) else none
      else none)

-- ## Response translation (handle_proxy_response, main.rs lines 312-342)

instance {ε α : Type} [DecidableEq ε] [DecidableEq α] : DecidableEq (Except ε α) := fun a b =>
  match a, b with
  | .error e, .error f =>
    if h : e = f then .isTrue (by subst h; rfl) else .isFalse (fun hh => by cases hh; exact h rfl)
  | .error _, .ok _ => .isFalse (fun hh => by cases hh)
  | .ok _, .error _ => .isFalse (fun hh => by cases hh)
  | .ok x, .ok y =>
    if h : x = y then .isTrue (by subst h; rfl) else .isFalse (fun hh => by cases hh; exact h rfl)

/-- A `reqwest::Response` as consumed by the program: status, header
pairs in wire order, and the body-read result of `response.bytes()`. -/
structure UpstreamResponse where
  status : Nat
  headers : List (String × List Nat)
  bodyResult : Except ReqwestErrorKind (List Nat)
deriving DecidableEq

/-- actix `insert_header`: replace any header with the same name, then
append the new one. -/
def insertHeader (m : List (String × List Nat)) (n : String) (v : List Nat) :
    List (String × List Nat) :=
  m.filter (fun p => p.1 != n) ++ [(n, v)]

/-- One step of the response-header copy loop: re-encodable headers are
inserted (actix lowercases the name), the rest are skipped. -/
def copyStep (m : List (String × List Nat)) (p : String × List Nat) :
    List (String × List Nat) :=
  if headerNameOk p.1 && headerValueToStrOk p.2 then insertHeader m (lowerStr p.1) p.2 else m

/-- The header copy loop of `handle_proxy_response`. -/
def copyHeaders (hs : List (String × List Nat)) : List (String × List Nat) :=
  hs.foldl copyStep []

/-- The four fixed security headers, applied last with `insert_header`
(names as actix stores them, lowercased). -/
def addSecurityHeaders (m : List (String × List Nat)) : List (String × List Nat) :=
  insertHeader
    (insertHeader
      (insertHeader
        (insertHeader m "x-content-type-options" (strBytes "nosniff"))
        "x-frame-options" (strBytes "DENY"))
      "referrer-policy" (strBytes "strict-origin-when-cross-origin"))
    "x-xss-protection" (strBytes "1; mode=block")

/-- The names of the four security headers. -/
def securityHeaderNames : List String :=
  ["x-content-type-options", "x-frame-options", "referrer-policy", "x-xss-protection"]

/-- The spec-side view of the copy loop: the headers that survive
re-encoding, with lowercased names, in wire order. -/
def keptHeaders (hs : List (String × List Nat)) : List (String × List Nat) :=
  hs.filterMap (fun p =>
    if headerNameOk p.1 && headerValueToStrOk p.2 then some (lowerStr p.1, p.2) else none)

/-- `handle_proxy_response` from main.rs: translate status (500 if the
u16 is outside 100..=999, the range `StatusCode::from_u16` accepts),
copy re-encodable headers, overwrite the security headers, then read
the body; a body-read failure becomes a `ReqwestError`. -/
def handle_proxy_response (resp : UpstreamResponse) : Except ProxyError HttpResponseM :=
  let st := if 100 ≤ resp.status ∧ resp.status ≤ 999 then resp.status else 500
  let hdrs := addSecurityHeaders (copyHeaders resp.headers)
  match resp.bodyResult with
  | .error e => .error (.reqwestError e)
  | .ok b => .ok ⟨st, hdrs, b⟩

-- ## The request handler (proxy_request, main.rs lines 345-387)

/-- An inbound actix request as far as the handler can observe it.
`queryString` models `req.query_string()`; the handler only ever reads
`req.path()`, which excludes the query string. -/
structure InboundRequest where
  path : String
  queryString : String
  method : String
  headers : List (String × List Nat)
  body : List Nat
deriving DecidableEq

/-- The outbound reqwest request built by `proxy_request`. -/
structure OutboundRequest where
  method : String
  url : String
  headers : List (String × List Nat)
  body : List Nat
deriving DecidableEq

/-- The method match in `proxy_request`: the seven allowed methods map
to themselves, everything else is rejected with the 405 response. -/
def parseMethod (m : String) : Option String :=
  match m with
  | "GET" | "POST" | "PUT" | "DELETE" | "PATCH" | "OPTIONS" | "HEAD" => some m
  | _ => none

/-- The 405 response returned inline by `proxy_request`. -/
def methodNotAllowedResponse : HttpResponseM :=
  ⟨405, [jsonCT], strBytes "\x7b\"error\": \"Method not allowed\", \"code\": 405\x7d"⟩

/-- `proxy_request` from main.rs, with the outbound HTTP exchange
abstracted as a function from the built request to a reqwest result. -/
def proxy_request (req : InboundRequest)
    (send : OutboundRequest → Except ReqwestErrorKind UpstreamResponse) :
    Except ProxyError HttpResponseM :=
  match extract_prefix_and_rest req.path with
  | none => .error .invalidUrl
  | some pr =>
    match build_target_url pr.1 pr.2 with
    | .error e => .error e
    | .ok turl =>
      match parseMethod req.method with
      | none => .ok methodNotAllowedResponse
      | some m =>
        match send ⟨m, renderUrl turl, process_headers req.headers, req.body⟩ with
        | .error e => .error (.reqwestError e)
        | .ok resp => handle_proxy_response resp

/-- The HTTP response the client sees: actix renders `Err` through
`ProxyError::error_response`. -/
def respond (req : InboundRequest)
    (send : OutboundRequest → Except ReqwestErrorKind UpstreamResponse) : HttpResponseM :=
  match proxy_request req send with
  | .ok r => r
  | .error e => errorResponse e

/-- The outbound request `proxy_request` hands to the client, when the
pipeline reaches the send stage. -/
def sentRequest (req : InboundRequest) : Option OutboundRequest :=
  match extract_prefix_and_rest req.path with
  | none => none
  | some pr =>
    match build_target_url pr.1 pr.2 with
    | .error _ => none
    | .ok turl =>
      match parseMethod req.method with
      | none => none
      | some m => some ⟨m, renderUrl turl, process_headers req.headers, req.body⟩

-- ## Route registration (main, main.rs lines 424-434)

/-- Where the actix `App` dispatches a request. The four reserved paths
are registered as exact-match resources with a GET-only route; actix
sends a path-matching request whose method fails every route guard to
the resource's default, a bare 405 responder.  Everything else falls to
`default_service`, i.e. `proxy_request`. -/
inductive Handler
  | root
  | robots
  | health_check
  | resourceDefault405
  | default_service
deriving DecidableEq

/-- The reserved exact-match paths of main.rs. -/
def reservedPaths : List String := ["/", "/index.html", "/robots.txt", "/health"]

/-- The dispatch of `main`'s `App` wiring (models actix-web resource
matching: path first, then the `web::get()` method guard). -/
def appDispatch (method path : String) : Handler :=
  if path = "/" then (if method = "GET" then .root else .resourceDefault405)
  else if path = "/index.html" then (if method = "GET" then .root else .resourceDefault405)
  else if path = "/robots.txt" then (if method = "GET" then .robots else .resourceDefault405)
  else if path = "/health" then (if method = "GET" then .health_check else .resourceDefault405)
  else .default_service

-- ## Spec-side helpers for the claims

/-- Plain path-segment characters: ASCII alphanumerics, `-`, `_`. -/
def plainListChars : List Char :=
  "abcdefghijklmnopqrstuvwxyzABCDEFGHIJKLMNOPQRSTUVWXYZ0123456789-_".data

def plainSegChar (c : Char) : Bool := plainListChars.elem c

/-- Plain remainder characters: plain segment characters or `/`. -/
def plainChar (c : Char) : Bool := plainSegChar c || c == '/'

def plainStr (s : String) : Bool := s.data.all plainChar

/-- Splitting a plain remainder into its slash-separated segments
(exactly what the WHATWG path state does when no dot segments, `\`,
`?`, `#` occur). -/
def splitSegsAux (buf : List Char) : List Char → List String
  | [] => [String.mk buf]
  | c :: cs => if c == '/' then String.mk buf :: splitSegsAux [] cs else splitSegsAux (buf ++ [c]) cs

def splitSegs (s : String) : List String := splitSegsAux [] s.data

-- ## Lemmas about prefix resolution

theorem matchRoute_some {L : List String} {s p : String}
    (h : matchRoute L s = some p) : p ∈ L ∧ strStartsWith s p = true := by
  induction L with
  | nil => simp [matchRoute] at h
  | cons x xs ih =>
    by_cases hx : strStartsWith s x = true
    · simp [matchRoute, hx] at h
      subst h
      exact ⟨List.mem_cons_self _ _, hx⟩
    · simp [matchRoute, hx] at h
      obtain ⟨hm, hw⟩ := ih h
      exact ⟨List.mem_cons_of_mem _ hm, hw⟩

theorem matchRoute_max {L : List String} {s p : String}
    (hs : List.Pairwise (fun a b => b.length ≤ a.length) L)
    (h : matchRoute L s = some p) :
    ∀ q ∈ L, strStartsWith s q = true → q.length ≤ p.length := by
  induction L with
  | nil => simp [matchRoute] at h
  | cons x xs ih =>
    obtain ⟨hx_all, hxs⟩ := List.pairwise_cons.mp hs
    by_cases hx : strStartsWith s x = true
    · simp [matchRoute, hx] at h
      subst h
      intro q hq _
      rcases List.mem_cons.mp hq with rfl | hq
      · exact le_refl _
      · exact hx_all q hq
    · simp [matchRoute, hx] at h
      intro q hq hsw
      rcases List.mem_cons.mp hq with rfl | hq
      · exact absurd hsw hx
      · exact ih hxs h q hq hsw

theorem matchRoute_none {L : List String} {s : String} :
    matchRoute L s = none ↔ ∀ q ∈ L, strStartsWith s q = false := by
  induction L with
  | nil => simp [matchRoute]
  | cons x xs ih =>
    constructor
    · intro h q hq
      rcases List.mem_cons.mp hq with rfl | hq
      · cases hsx : strStartsWith s q with
        | false => rfl
        | true => simp [matchRoute, hsx] at h
      · cases hsx : strStartsWith s x with
        | true => simp [matchRoute, hsx] at h
        | false =>
          simp [matchRoute, hsx] at h
          exact ih.mp h q hq
    · intro h
      have hx := h x (List.mem_cons_self x xs)
      simp [matchRoute, hx]
      exact ih.mpr (fun q hq => h q (List.mem_cons_of_mem _ hq))

/-- C5: route resolution returns the configured prefix of greatest length
that is a literal string-prefix of the path, with the remainder obtained
by stripping it, and returns none exactly when no configured prefix is a
string-prefix of the path. -/
theorem C5_longest_match :
    ∀ (path pfx rest : String),
      (extract_prefix_and_rest path = some (pfx, rest) →
        pfx ∈ mappingKeys ∧ strStartsWith path pfx = true ∧
        rest = strDrop path pfx.length ∧
        ∀ q ∈ mappingKeys, strStartsWith path q = true → q.length ≤ pfx.length) ∧
      (extract_prefix_and_rest path = none ↔
        ∀ q ∈ mappingKeys, strStartsWith path q = false) := by
  have hperm : sortedPaths.Perm mappingKeys := by decide
  have hsorted : List.Pairwise (fun a b : String => b.length ≤ a.length) sortedPaths := by decide
  intro path pfx rest
  constructor
  · intro h
    cases hm : matchRoute sortedPaths path with
    | none => simp [extract_prefix_and_rest, hm] at h
    | some p =>
      simp [extract_prefix_and_rest, hm] at h
      obtain ⟨h1, h2⟩ := h
      subst h1
      obtain ⟨hpm, hpw⟩ := matchRoute_some hm
      refine ⟨hperm.mem_iff.mp hpm, hpw, h2.symm, ?_⟩
      intro q hq hsw
      exact matchRoute_max hsorted hm q (hperm.mem_iff.mpr hq) hsw
  · cases hm : matchRoute sortedPaths path with
    | none =>
      simp [extract_prefix_and_rest, hm]
      intro q hq
      exact matchRoute_none.mp hm q (hperm.mem_iff.mpr hq)
    | some p =>
      simp [extract_prefix_and_rest, hm]
      obtain ⟨hpm, hpw⟩ := matchRoute_some hm
      exact ⟨p, hperm.mem_iff.mp hpm, hpw⟩

/-- Witness for C5 at the path `/openai/v1/models`. -/
theorem C5_witness :
    "/openai" ∈ mappingKeys ∧ strStartsWith "/openai/v1/models" "/openai" = true ∧
    "/v1/models" = strDrop "/openai/v1/models" ("/openai".length) ∧
    "/openai".length ≤ "/openai".length := by
  have h := (C5_longest_match "/openai/v1/models" "/openai" "/v1/models").1 (by decide)
  exact ⟨h.1, h.2.1, h.2.2.1, h.2.2.2 "/openai" h.1 h.2.1⟩

-- ## Lemmas about the pipeline plumbing

theorem sentRequest_eq {req : InboundRequest} {ob : OutboundRequest}
    (h : sentRequest req = some ob) :
    ob.body = req.body ∧
    ∀ send, proxy_request req send =
      match send ob with
      | .error e => .error (.reqwestError e)
      | .ok resp => handle_proxy_response resp := by
  cases he : extract_prefix_and_rest req.path with
  | none => simp [sentRequest, he] at h
  | some pr =>
    cases hb : build_target_url pr.1 pr.2 with
    | error e => simp [sentRequest, he, hb] at h
    | ok turl =>
      cases hm : parseMethod req.method with
      | none => simp [sentRequest, he, hb, hm] at h
      | some m =>
        simp [sentRequest, he, hb, hm] at h
        subst h
        constructor
        · rfl
        · intro send
          simp [proxy_request, he, hb, hm]

theorem handle_ok {resp : UpstreamResponse} {b : List Nat}
    (h : resp.bodyResult = .ok b) :
    handle_proxy_response resp =
      .ok ⟨(if 100 ≤ resp.status ∧ resp.status ≤ 999 then resp.status else 500),
           addSecurityHeaders (copyHeaders resp.headers), b⟩ := by
  simp [handle_proxy_response, h]

theorem handle_err {resp : UpstreamResponse} {e : ReqwestErrorKind}
    (h : resp.bodyResult = .error e) :
    handle_proxy_response resp = .error (.reqwestError e) := by
  simp [handle_proxy_response, h]

-- ## C1

/-- C1 (amended): a request whose path no configured prefix matches is
answered with status 400 and the body
`{"error": "Invalid target URL", "code": 400}` — the code folds a route
miss into `ProxyError::InvalidUrl`, so no 404 exists in the pipeline. -/
theorem C1_amended_ok :
    ∀ (req : InboundRequest) (send : OutboundRequest → Except ReqwestErrorKind UpstreamResponse),
      extract_prefix_and_rest req.path = none →
      respond req send =
        ⟨400, [jsonCT], strBytes "\x7b\"error\": \"Invalid target URL\", \"code\": 400\x7d"⟩ := by
  intro req send h
  simp [respond, proxy_request, h, errorResponse]

/-- Witness for C1 at the unmapped path `/unknown`. -/
theorem C1_witness :
    respond ⟨"/unknown", "", "GET", [], []⟩ (fun _ => .error .other) =
      ⟨400, [jsonCT], strBytes "\x7b\"error\": \"Invalid target URL\", \"code\": 400\x7d"⟩ :=
  C1_amended_ok _ _ (by decide)

/-- Counterexample to C1 as stated: the unmapped path `/unknown` yields
status 400, not the claimed 404. -/
theorem C1_counterexample :
    (respond ⟨"/unknown", "", "GET", [], []⟩ (fun _ => .error .other)).status = 400 ∧
    (respond ⟨"/unknown", "", "GET", [], []⟩ (fun _ => .error .other)).status ≠ 404 := by
  decide

-- ## C6

/-- C6 (amended): the four reserved paths never reach the
routing-and-forwarding pipeline and every other path always does, for
every method; but only GET requests on the reserved paths are served by
the collaborator handlers — any other method gets the actix resource
default 405 response. -/
theorem C6_amended_ok :
    ∀ (m p : String),
      (p ∈ reservedPaths → appDispatch m p ≠ Handler.default_service) ∧
      (p ∉ reservedPaths → appDispatch m p = Handler.default_service) ∧
      (m = "GET" →
        appDispatch m "/" = Handler.root ∧ appDispatch m "/index.html" = Handler.root ∧
        appDispatch m "/robots.txt" = Handler.robots ∧
        appDispatch m "/health" = Handler.health_check) ∧
      (m ≠ "GET" → p ∈ reservedPaths → appDispatch m p = Handler.resourceDefault405) := by
  intro m p
  refine ⟨?_, ?_, ?_, ?_⟩
  · intro hp
    simp [reservedPaths] at hp
    rcases hp with rfl | rfl | rfl | rfl <;>
      by_cases hm : m = "GET" <;> simp [appDispatch, hm]
  · intro hp
    simp [reservedPaths] at hp
    obtain ⟨h1, h2, h3, h4⟩ := hp
    simp [appDispatch, h1, h2, h3, h4]
  · intro hm
    subst hm
    exact ⟨by decide, by decide, by decide, by decide⟩
  · intro hm hp
    simp [reservedPaths] at hp
    rcases hp with rfl | rfl | rfl | rfl <;> simp [appDispatch, hm]

/-- Witness for C6: GET on `/health` reaches the health collaborator, an
unreserved path reaches the pipeline. -/
theorem C6_witness :
    appDispatch "GET" "/health" = Handler.health_check ∧
    appDispatch "POST" "/unknown" = Handler.default_service := by
  refine ⟨((C6_amended_ok "GET" "/health").2.2.1 rfl).2.2.2, ?_⟩
  exact (C6_amended_ok "POST" "/unknown").2.1 (by decide)

/-- Counterexample to C6 as stated: a POST to the reserved path `/health`
is dispatched to the actix resource default (bare 405), which is neither
the health collaborator handler nor the pipeline. -/
theorem C6_counterexample :
    appDispatch "POST" "/health" = Handler.resourceDefault405 ∧
    Handler.resourceDefault405 ≠ Handler.health_check ∧
    Handler.resourceDefault405 ≠ Handler.default_service := by decide

-- ## C3

/-- C3 (amended): outbound failures are not subclassified — a connection
failure, a timeout, any other transport failure, and a body-read failure
after status/headers were received all yield status 502 with body
`{"error": "Failed to process request", "code": 502}`. -/
theorem C3_amended_ok :
    ∀ (req : InboundRequest) (send : OutboundRequest → Except ReqwestErrorKind UpstreamResponse)
      (ob : OutboundRequest) (e : ReqwestErrorKind),
      sentRequest req = some ob →
      (send ob = .error e →
        respond req send =
          ⟨502, [jsonCT], strBytes "\x7b\"error\": \"Failed to process request\", \"code\": 502\x7d"⟩) ∧
      (∀ u, send ob = .ok u → u.bodyResult = .error e →
        respond req send =
          ⟨502, [jsonCT], strBytes "\x7b\"error\": \"Failed to process request\", \"code\": 502\x7d"⟩) := by
  intro req send ob e hs
  obtain ⟨-, halign⟩ := sentRequest_eq hs
  constructor
  · intro hsend
    simp [respond, halign send, hsend, errorResponse]
  · intro u hsend hbody
    simp [respond, halign send, hsend, handle_err hbody, errorResponse]

/-- Witness for C3: a timeout and a body-read failure on `/openai/v1`
both produce the 502 response. -/
theorem C3_witness :
    respond ⟨"/openai/v1", "", "GET", [], []⟩ (fun _ => Except.error ReqwestErrorKind.timeout) =
      ⟨502, [jsonCT], strBytes "\x7b\"error\": \"Failed to process request\", \"code\": 502\x7d"⟩ ∧
    respond ⟨"/openai/v1", "", "GET", [], []⟩
        (fun _ => Except.ok ⟨200, [], Except.error ReqwestErrorKind.bodyRead⟩) =
      ⟨502, [jsonCT], strBytes "\x7b\"error\": \"Failed to process request\", \"code\": 502\x7d"⟩ := by
  constructor
  · exact (C3_amended_ok _ _ ⟨"GET", "https://api.openai.com/v1", [], []⟩ .timeout
      (by decide)).1 rfl
  · exact (C3_amended_ok _ _ ⟨"GET", "https://api.openai.com/v1", [], []⟩ .bodyRead
      (by decide)).2 _ rfl rfl

/-- Counterexample to C3 as stated: a deadline (timeout) failure yields
502, not the claimed 504. -/
theorem C3_counterexample :
    (respond ⟨"/openai/v1", "", "GET", [], []⟩
        (fun _ => Except.error ReqwestErrorKind.timeout)).status = 502 ∧
    (respond ⟨"/openai/v1", "", "GET", [], []⟩
        (fun _ => Except.error ReqwestErrorKind.timeout)).status ≠ 504 := by decide

-- ## C9

/-- C9: the body is an identity relay in both directions — the outbound
request carries the client's bytes unchanged, and the client receives
the upstream's body bytes unchanged. -/
theorem C9_body_identity :
    ∀ (req : InboundRequest) (send : OutboundRequest → Except ReqwestErrorKind UpstreamResponse)
      (ob : OutboundRequest) (u : UpstreamResponse) (b : List Nat),
      sentRequest req = some ob → send ob = .ok u → u.bodyResult = .ok b →
      ob.body = req.body ∧ (respond req send).body = b := by
  intro req send ob u b hs hsend hb
  obtain ⟨hbody, halign⟩ := sentRequest_eq hs
  refine ⟨hbody, ?_⟩
  simp [respond, halign send, hsend, handle_ok hb]

/-- Witness for C9 with request body `[1, 2, 3]` and upstream body `[9, 8]`. -/
theorem C9_witness :
    (⟨"GET", "https://api.openai.com/v1", [], [1, 2, 3]⟩ : OutboundRequest).body =
      (⟨"/openai/v1", "", "GET", [], [1, 2, 3]⟩ : InboundRequest).body ∧
    (respond ⟨"/openai/v1", "", "GET", [], [1, 2, 3]⟩
        (fun _ => Except.ok ⟨200, [], Except.ok [9, 8]⟩)).body = [9, 8] :=
  C9_body_identity _ _ _ _ _ (by decide) rfl rfl

-- ## C2

/-- C2 (code bug): the remainder `/https://evil.example/x` under the
`/openai` route makes `build_target_url` produce a URL whose host is
`evil.example`, not the host `api.openai.com` of the configured
`target_base` — `Url::join` resolves a scheme-carrying reference to an
absolute URL, so an attacker-supplied remainder can redirect the
request to a different host. -/
theorem C2_host_escape :
    build_target_url "/openai" "/https://evil.example/x" =
      .ok ⟨"https", some "evil.example", none, ["x"], none, none, false⟩ ∧
    urlParse "https://api.openai.com" =
      some ⟨"https", some "api.openai.com", none, [""], none, none, false⟩ ∧
    (some "evil.example" : Option String) ≠ some "api.openai.com" := by decide

-- ## C4

/-- C4 (code bug): for `GET /telegram/botX/getUpdates?offset=5` the
handler builds the outbound URL from `req.path()` alone, so the target
URL carries no query string at all — `req.query_string()` is never
read, and the inbound query `offset=5` is silently dropped. -/
theorem C4_query_dropped :
    (⟨"/telegram/botX/getUpdates", "offset=5", "GET", [], []⟩ : InboundRequest).queryString
      = "offset=5" ∧
    sentRequest ⟨"/telegram/botX/getUpdates", "offset=5", "GET", [], []⟩ =
      some ⟨"GET", "https://api.telegram.org/botX/getUpdates", [], []⟩ := by decide

-- ## C8

/-- C8: the outbound header list holds exactly the inbound headers whose
lowercased name is in the fixed allowlist and whose value is
representable in the outbound encoding (survives `to_str`), with values
copied verbatim and unrepresentable values silently dropped; the
allowlist contains the required minimum names. -/
theorem C8_header_filter :
    (∀ hs : List (String × List Nat), (∀ p ∈ hs, headerNameOk p.1 = true) →
      process_headers hs =
        (hs.filter (fun p => ALLOWED_HEADERS.contains (lowerStr p.1) && headerValueToStrOk p.2)).map
          (fun p => (lowerStr p.1, p.2))) ∧
    (∀ s ∈ ["accept", "content-type", "authorization", "x-api-key", "x-goog-api-key",
            "user-agent", "cache-control"], ALLOWED_HEADERS.contains s = true) := by
  constructor
  · intro hs hn
    induction hs with
    | nil => rfl
    | cons p t ih =>
      have hp := hn p (List.mem_cons_self p t)
      have ih2 := ih (fun q hq => hn q (List.mem_cons_of_mem _ hq))
      simp only [process_headers] at ih2 ⊢
      cases ha : ALLOWED_HEADERS.contains (lowerStr p.1) with
      | false =>
        have ha' : lowerStr p.1 ∉ ALLOWED_HEADERS := by simpa using ha
        simp [List.filter_cons, ha']
        simpa using ih2
      | true =>
        have ha' : lowerStr p.1 ∈ ALLOWED_HEADERS := by simpa using ha
        cases hv : headerValueToStrOk p.2 with
        | false =>
          simp [List.filter_cons, List.filterMap_cons, ha', hv]
          simpa using ih2
        | true =>
          simp [List.filter_cons, List.filterMap_cons, ha', hv, hp]
          simpa using ih2
  · decide

/-- Witness for C8: `X-Custom` is dropped (not allowlisted),
`Authorization` passes verbatim, and an `accept` header whose value
byte 0 is unrepresentable is silently dropped. -/
theorem C8_witness :
    process_headers
        [("X-Custom", strBytes "secret"), ("Authorization", strBytes "Bearer abc"),
         ("accept", [0])] =
      [("authorization", strBytes "Bearer abc")] := by
  have h := C8_header_filter.1
      [("X-Custom", strBytes "secret"), ("Authorization", strBytes "Bearer abc"), ("accept", [0])]
      (by decide)
  rw [h]
  decide

-- ## Lemmas about the URL model on plain path remainders

theorem dropWhile_eq_self_of {α : Type} {p : α → Bool} {l : List α}
    (h : ∀ c ∈ l, p c = false) : l.dropWhile p = l := by
  cases l with
  | nil => rfl
  | cons a t => simp [List.dropWhile_cons, h a (List.mem_cons_self a t)]

theorem mem_of_dropWhile_cons {α : Type} {p : α → Bool} :
    ∀ {l : List α} {x : α} {t : List α}, l.dropWhile p = x :: t → x ∈ l := by
  intro l
  induction l with
  | nil => intro x t h; simp [List.dropWhile] at h
  | cons a as ih =>
    intro x t h
    by_cases hp : p a = true
    · rw [List.dropWhile_cons, if_pos hp] at h
      exact List.mem_cons_of_mem _ (ih h)
    · rw [List.dropWhile_cons, if_neg hp] at h
      cases h
      exact List.mem_cons_self _ _

theorem dropWhile_head_false {α : Type} {p : α → Bool} :
    ∀ {l : List α} {x : α} {t : List α}, l.dropWhile p = x :: t → p x = false := by
  intro l
  induction l with
  | nil => intro x t h; simp [List.dropWhile] at h
  | cons a as ih =>
    intro x t h
    by_cases hp : p a = true
    · rw [List.dropWhile_cons, if_pos hp] at h
      exact ih h
    · rw [List.dropWhile_cons, if_neg hp] at h
      cases h
      exact Bool.eq_false_iff.mpr hp

theorem plainChar_props {c : Char} (h : plainChar c = true) :
    isC0OrSpace c = false ∧ isTabOrNewline c = false ∧
    c ≠ ':' ∧ c ≠ '?' ∧ c ≠ '#' ∧ c ≠ '\\' := by
  have hd : plainSegChar c = true ∨ c = '/' := by
    have h' := h
    simp [plainChar] at h'
    exact h'
  rcases hd with hs | rfl
  · have hm : c ∈ plainListChars := List.mem_of_elem_eq_true hs
    have hall : ∀ x ∈ plainListChars,
        isC0OrSpace x = false ∧ isTabOrNewline x = false ∧
        x ≠ ':' ∧ x ≠ '?' ∧ x ≠ '#' ∧ x ≠ '\\' := by decide
    exact hall c hm
  · exact ⟨by decide, by decide, by decide, by decide, by decide, by decide⟩

theorem plainSegChar_no_dot {c : Char} (h : plainSegChar c = true) : c ≠ '.' := by
  have hm : c ∈ plainListChars := List.mem_of_elem_eq_true h
  have hall : ∀ x ∈ plainListChars, x ≠ '.' := by decide
  exact hall c hm

theorem preprocess_plain {cs : List Char} (h : ∀ c ∈ cs, plainChar c = true) :
    preprocess cs = cs := by
  have h1 : cs.dropWhile isC0OrSpace = cs :=
    dropWhile_eq_self_of (fun c hc => (plainChar_props (h c hc)).1)
  have h2 : cs.reverse.dropWhile isC0OrSpace = cs.reverse :=
    dropWhile_eq_self_of (fun c hc => (plainChar_props (h c (List.mem_reverse.mp hc))).1)
  have h3 : cs.filter (fun c => !(isTabOrNewline c)) = cs :=
    List.filter_eq_self.mpr (fun c hc => by rw [(plainChar_props (h c hc)).2.1]; rfl)
  simp only [preprocess, h1, h2, List.reverse_reverse, h3]

theorem parseScheme_none {cs : List Char} (h : ∀ c ∈ cs, c ≠ ':') : parseScheme cs = none := by
  cases cs with
  | nil => rfl
  | cons c t =>
    simp only [parseScheme]
    by_cases ha : c.isAlpha = true
    · have hne : ¬(((c :: t).dropWhile isSchemeChar).head? = some ':') := by
        intro hh
        cases hd : (c :: t).dropWhile isSchemeChar with
        | nil => rw [hd] at hh; cases hh
        | cons x xs =>
          rw [hd] at hh
          have hx : x = ':' := by simpa using hh
          subst hx
          exact h ':' (mem_of_dropWhile_cons hd) rfl
      rw [if_pos ha, if_neg hne]
    · rw [if_neg ha]

theorem strIn_false {L : List String} (hL : ∀ x ∈ L, ∃ c ∈ x.data, plainSegChar c = false)
    {s : String} (hs : ∀ c ∈ s.data, plainSegChar c = true) : strIn L s = false := by
  induction L with
  | nil => rfl
  | cons x xs ih =>
    simp only [strIn]
    rw [if_neg]
    · exact ih (fun y hy => hL y (List.mem_cons_of_mem _ hy))
    · intro he
      obtain ⟨c, hc, hcf⟩ := hL x (List.mem_cons_self x xs)
      rw [← he] at hc
      rw [hs c hc] at hcf
      cases hcf

theorem flushSeg_plain {segs : List String} {buf : List Char} {b : Bool}
    (h : ∀ c ∈ buf, plainSegChar c = true) :
    flushSeg segs buf b = segs ++ [String.mk buf] := by
  have h1 : isDoubleDot (String.mk buf) = false := strIn_false (by decide) h
  have h2 : isSingleDot (String.mk buf) = false := strIn_false (by decide) h
  simp [flushSeg, h1, h2]

theorem pathLoop_plain :
    ∀ (cs : List Char) (segs : List String) (buf : List Char),
      (∀ c ∈ cs, plainChar c = true) → (∀ c ∈ buf, plainSegChar c = true) →
      pathLoop segs buf cs = (segs ++ splitSegsAux buf cs, none, none) := by
  intro cs
  induction cs with
  | nil =>
    intro segs buf _ hbuf
    simp [pathLoop, splitSegsAux, flushSeg_plain hbuf]
  | cons c cs ih =>
    intro segs buf hcs hbuf
    have hc := hcs c (List.mem_cons_self c cs)
    have hcs2 : ∀ x ∈ cs, plainChar x = true := fun x hx => hcs x (List.mem_cons_of_mem _ hx)
    obtain ⟨-, -, -, hq, hh, hbs⟩ := plainChar_props hc
    by_cases hsl : c = '/'
    · subst hsl
      simp only [pathLoop]
      rw [if_pos (by decide : (('/' : Char) == '/' || ('/' : Char) == '\\') = true)]
      rw [flushSeg_plain hbuf, ih _ _ hcs2 (fun x hx => absurd hx (List.not_mem_nil x))]
      simp [splitSegsAux, List.append_assoc]
    · have hcseg : plainSegChar c = true := by
        have h' := hc
        simp [plainChar] at h'
        rcases h' with h1 | h1
        · exact h1
        · exact absurd h1 hsl
      have hbuf2 : ∀ x ∈ buf ++ [c], plainSegChar x = true := by
        intro x hx
        rcases List.mem_append.mp hx with h1 | h1
        · exact hbuf x h1
        · rcases List.mem_singleton.mp h1 with rfl
          exact hcseg
      have e1 : ¬((c == '/' || c == '\\') = true) := by
        simp [beq_eq_false_iff_ne.mpr hsl, beq_eq_false_iff_ne.mpr hbs]
      have e2 : ¬((c == '?') = true) := by simp [beq_eq_false_iff_ne.mpr hq]
      have e3 : ¬((c == '#') = true) := by simp [beq_eq_false_iff_ne.mpr hh]
      have e4 : ¬((c == '/') = true) := by simp [beq_eq_false_iff_ne.mpr hsl]
      simp only [pathLoop]
      rw [if_neg e1, if_neg e2, if_neg e3, ih _ _ hcs2 hbuf2]
      simp only [splitSegsAux]
      rw [if_neg e4]

theorem relativeResolve_plain {base : Url} {cs : List Char}
    (hplain : ∀ c ∈ cs, plainChar c = true)
    (hne : cs ≠ [])
    (hhead : ∀ x t, cs = x :: t → x ≠ '/') :
    relativeResolve base cs =
      some ⟨base.scheme, base.host, base.port,
            shortenPath base.path ++ splitSegsAux [] cs, none, none, false⟩ := by
  cases cs with
  | nil => exact absurd rfl hne
  | cons c t =>
    have hc := hplain c (List.mem_cons_self c t)
    obtain ⟨-, -, -, hq, hh, hbs⟩ := plainChar_props hc
    have hsl : c ≠ '/' := hhead c t rfl
    have e1 : ¬((c == '?') = true) := by simp [beq_eq_false_iff_ne.mpr hq]
    have e2 : ¬((c == '#') = true) := by simp [beq_eq_false_iff_ne.mpr hh]
    have e3 : ¬((c == '/' || c == '\\') = true) := by
      simp [beq_eq_false_iff_ne.mpr hsl, beq_eq_false_iff_ne.mpr hbs]
    simp only [relativeResolve]
    rw [if_neg e1, if_neg e2, if_neg e3]
    simp only [relPathResolve]
    rw [pathLoop_plain (c :: t) _ _ hplain (fun x hx => absurd hx (List.not_mem_nil x))]

theorem str_data_nil {s : String} (h : s.data = []) : s = "" := by
  cases s with
  | mk d =>
    simp only [] at h
    rw [show d = [] from h]

theorem urlJoin_plain {base : Url} {r : String}
    (hplain : ∀ c ∈ r.data, plainChar c = true)
    (hne : r.data ≠ [])
    (hhead : ∀ x t, r.data = x :: t → x ≠ '/') :
    urlJoin base r =
      some ⟨base.scheme, base.host, base.port,
            shortenPath base.path ++ splitSegs r, none, none, false⟩ := by
  have hpre : preprocess r.data = r.data := preprocess_plain hplain
  have hsch : parseScheme r.data = none :=
    parseScheme_none (fun c hc => (plainChar_props (hplain c hc)).2.2.1)
  simp only [urlJoin, hpre, hsch]
  exact relativeResolve_plain hplain hne hhead

theorem lookup_of_mem {l : List (String × String)} {a b : String}
    (hnd : (l.map Prod.fst).Nodup) (hm : (a, b) ∈ l) : List.lookup a l = some b := by
  induction l with
  | nil => cases hm
  | cons kv xs ih =>
    obtain ⟨k, v⟩ := kv
    have hnd' : k ∉ (xs.map Prod.fst) ∧ (xs.map Prod.fst).Nodup := by
      rw [List.map_cons] at hnd
      exact List.nodup_cons.mp hnd
    obtain ⟨hk, hnd2⟩ := hnd'
    rcases List.mem_cons.mp hm with he | hm2
    · cases he
      simp [List.lookup]
    · have hak : ¬(a = k) := by
        intro he
        subst he
        exact hk (List.mem_map_of_mem Prod.fst hm2)
      have hak' : (a == k) = false := beq_eq_false_iff_ne.mpr hak
      simp [List.lookup, hak']
      exact ih hnd2 hm2

-- ## C10

/-- C10 (amended): for every configured route whose target_base URL has a
non-empty path component not ending in a slash, and every remainder whose
form after stripping leading slashes is a non-empty plain segment path
(alphanumerics, `-`, `_`, `/`; in particular carrying no URL scheme),
relative-reference resolution drops the final path segment of the base:
the built URL keeps the base's scheme, host and port, and its path is
the base's path with the last segment removed followed by the
remainder's segments.  (Remainders that carry a scheme of their own
escape the base entirely; see the counterexample.) -/
theorem C10_amended_ok :
    ∀ (pfx b : String) (u : Url) (r : String),
      (pfx, b) ∈ API_MAPPING → urlParse b = some u →
      u.path ≠ [] → u.path.getLast? ≠ some "" →
      plainStr (trimLeadingSlashes r) = true → trimLeadingSlashes r ≠ "" →
      build_target_url pfx r =
        .ok ⟨u.scheme, u.host, u.port,
             u.path.dropLast ++ splitSegs (trimLeadingSlashes r), none, none, false⟩ := by
  intro pfx b u r hmem hparse _ _ hplain hne
  have hnd : (API_MAPPING.map Prod.fst).Nodup := by decide
  have hlook : List.lookup pfx API_MAPPING = some b := lookup_of_mem hnd hmem
  have hplain' : ∀ c ∈ (trimLeadingSlashes r).data, plainChar c = true := by
    intro c hc
    exact List.all_eq_true.mp hplain c hc
  have hned : (trimLeadingSlashes r).data ≠ [] := fun h0 => hne (str_data_nil h0)
  have hhead : ∀ x t, (trimLeadingSlashes r).data = x :: t → x ≠ '/' := by
    intro x t hxt
    have hxt' : r.data.dropWhile (fun c => c == '/') = x :: t := hxt
    have hb := @dropWhile_head_false Char (fun c => c == '/') r.data x t hxt'
    exact beq_eq_false_iff_ne.mp hb
  simp only [build_target_url, hlook, hparse]
  rw [urlJoin_plain hplain' hned hhead]
  rfl

/-- Witness for C10: the `/groq` route (base `https://api.groq.com/openai`)
with remainder `/v1/models` resolves to `https://api.groq.com/v1/models` —
the base's `openai` segment is dropped. -/
theorem C10_witness :
    build_target_url "/groq" "/v1/models" =
      .ok ⟨"https", some "api.groq.com", none, ["v1", "models"], none, none, false⟩ := by
  have h := C10_amended_ok "/groq" "https://api.groq.com/openai"
      ⟨"https", some "api.groq.com", none, ["openai"], none, none, false⟩ "/v1/models"
      (by decide) (by decide) (by decide) (by decide) (by decide) (by decide)
  rw [h]
  decide

/-- Counterexample to C10 as stated over every non-empty remainder: the
remainder `/https://other.test/v1` on the `/groq` route does not replace
the base's final segment — the whole base is replaced, and the built URL
is on host `other.test` instead of `api.groq.com`. -/
theorem C10_counterexample :
    build_target_url "/groq" "/https://other.test/v1" =
      .ok ⟨"https", some "other.test", none, ["v1"], none, none, false⟩ ∧
    (some "other.test" : Option String) ≠ some "api.groq.com" := by decide

-- ## Lemmas about header insertion and the response copy loop

theorem lookup_append {β : Type} (l₁ l₂ : List (String × β)) (n : String) :
    List.lookup n (l₁ ++ l₂) =
      (match List.lookup n l₁ with
       | some v => some v
       | none => List.lookup n l₂) := by
  induction l₁ with
  | nil => simp [List.lookup]
  | cons kv t ih =>
    obtain ⟨k, v⟩ := kv
    cases hk : (n == k) with
    | true => simp [List.lookup, hk]
    | false => simp [List.lookup, hk, ih]

theorem mem_insertHeader_same {m : List (String × List Nat)} {n : String} {v w : List Nat} :
    ((n, v) ∈ insertHeader m n w) ↔ v = w := by
  constructor
  · intro h
    rcases List.mem_append.mp h with h1 | h2
    · have hb := (List.mem_filter.mp h1).2
      simp at hb
    · have he := List.mem_singleton.mp h2
      exact (Prod.ext_iff.mp he).2
  · intro h
    subst h
    exact List.mem_append_right _ (List.mem_singleton.mpr rfl)

theorem mem_insertHeader_ne {m : List (String × List Nat)} {n n' : String} {v v' : List Nat}
    (hne : n ≠ n') :
    ((n, v) ∈ insertHeader m n' v') ↔ (n, v) ∈ m := by
  constructor
  · intro h
    rcases List.mem_append.mp h with h1 | h2
    · exact (List.mem_filter.mp h1).1
    · have he := List.mem_singleton.mp h2
      exact absurd (Prod.ext_iff.mp he).1 hne
  · intro h
    refine List.mem_append_left _ (List.mem_filter.mpr ⟨h, ?_⟩)
    exact bne_iff_ne.mpr hne

theorem countP_insertHeader_self (m : List (String × List Nat)) (n : String) (v : List Nat) :
    (insertHeader m n v).countP (fun p => p.1 == n) = 1 := by
  rw [insertHeader, List.countP_append]
  have h0 : (m.filter (fun p => p.1 != n)).countP (fun p => p.1 == n) = 0 := by
    rw [List.countP_eq_zero]
    intro p hp
    have hb := (List.mem_filter.mp hp).2
    simp only [bne_iff_ne] at hb
    simp [hb]
  rw [h0]
  simp [List.countP_cons]

theorem countP_insertHeader_ne {n n' : String} (hne : n ≠ n')
    (m : List (String × List Nat)) (v' : List Nat) :
    (insertHeader m n' v').countP (fun p => p.1 == n) = m.countP (fun p => p.1 == n) := by
  rw [insertHeader, List.countP_append, List.countP_filter]
  have h1 : List.countP (fun p : String × List Nat => p.1 == n) [(n', v')] = 0 := by
    simp [List.countP_cons, beq_eq_false_iff_ne.mpr (Ne.symm hne)]
  rw [h1, Nat.add_zero]
  apply List.countP_congr
  intro a _
  constructor
  · intro h
    have h' : (a.1 == n) = true ∧ (a.1 != n') = true := by simpa using h
    exact h'.1
  · intro h
    have ha : a.1 = n := beq_iff_eq.mp h
    have hb : (a.1 != n') = true := by
      rw [ha]
      exact bne_iff_ne.mpr hne
    rw [h, hb]
    rfl

theorem mem_copyHeaders_aux :
    ∀ (hs : List (String × List Nat)) (m : List (String × List Nat)) (n : String) (v : List Nat),
      ((n, v) ∈ hs.foldl copyStep m) ↔
        (List.lookup n (keptHeaders hs).reverse = some v ∨
         (List.lookup n (keptHeaders hs).reverse = none ∧ (n, v) ∈ m)) := by
  intro hs
  induction hs with
  | nil =>
    intro m n v
    simp [keptHeaders, List.lookup]
  | cons p t ih =>
    intro m n v
    rw [List.foldl_cons]
    cases hk : (headerNameOk p.1 && headerValueToStrOk p.2) with
    | false =>
      have hk' : ¬(headerNameOk p.1 = true ∧ headerValueToStrOk p.2 = true) := by
        intro hc
        rw [hc.1, hc.2] at hk
        simp at hk
      have hstep : copyStep m p = m := by simp [copyStep, hk]
      have hkept : keptHeaders (p :: t) = keptHeaders t := by
        simp [keptHeaders, List.filterMap_cons, hk']
      rw [hstep, hkept]
      exact ih m n v
    | true =>
      have hk2 := hk
      rw [Bool.and_eq_true] at hk2
      have hstep : copyStep m p = insertHeader m (lowerStr p.1) p.2 := by simp [copyStep, hk]
      have hkept : keptHeaders (p :: t) = (lowerStr p.1, p.2) :: keptHeaders t := by
        simp [keptHeaders, List.filterMap_cons, hk2.1, hk2.2]
      rw [hstep, hkept, ih, List.reverse_cons, lookup_append]
      cases hl : List.lookup n (keptHeaders t).reverse with
      | some w => simp
      | none =>
        by_cases hn : n = lowerStr p.1
        · subst hn
          simp [List.lookup, mem_insertHeader_same, eq_comm]
        · have hn' : (n == lowerStr p.1) = false := beq_eq_false_iff_ne.mpr hn
          simp [List.lookup, hn', mem_insertHeader_ne hn]

-- ## C7

/-- C7 (amended): a successfully relayed upstream response carries the
upstream status verbatim (500 only outside the valid 100..999 range),
the upstream body verbatim, exactly one occurrence of each of the four
fixed security headers with their fixed values (winning over any
same-named upstream header), and, for every other header name, exactly
the LAST re-encodable upstream occurrence of that name — `insert_header`
semantics make a later duplicate replace an earlier one, so duplicate
upstream names collapse to a single header rather than all being copied. -/
theorem C7_amended_ok :
    ∀ (r : UpstreamResponse) (b : List Nat) (out : HttpResponseM),
      r.bodyResult = .ok b → handle_proxy_response r = .ok out →
      out.status = (if 100 ≤ r.status ∧ r.status ≤ 999 then r.status else 500) ∧
      out.body = b ∧
      out.headers.countP (fun p => p.1 == "x-content-type-options") = 1 ∧
      ("x-content-type-options", strBytes "nosniff") ∈ out.headers ∧
      out.headers.countP (fun p => p.1 == "x-frame-options") = 1 ∧
      ("x-frame-options", strBytes "DENY") ∈ out.headers ∧
      out.headers.countP (fun p => p.1 == "referrer-policy") = 1 ∧
      ("referrer-policy", strBytes "strict-origin-when-cross-origin") ∈ out.headers ∧
      out.headers.countP (fun p => p.1 == "x-xss-protection") = 1 ∧
      ("x-xss-protection", strBytes "1; mode=block") ∈ out.headers ∧
      (∀ (n : String) (v : List Nat), n ∉ securityHeaderNames →
        (((n, v) ∈ out.headers) ↔ List.lookup n (keptHeaders r.headers).reverse = some v)) := by
  intro r b out hb hout
  rw [handle_ok hb] at hout
  cases hout
  refine ⟨rfl, rfl, ?_, ?_, ?_, ?_, ?_, ?_, ?_, ?_, ?_⟩
  · simp only [addSecurityHeaders]
    rw [countP_insertHeader_ne (by decide), countP_insertHeader_ne (by decide),
        countP_insertHeader_ne (by decide)]
    exact countP_insertHeader_self _ _ _
  · simp only [addSecurityHeaders]
    rw [mem_insertHeader_ne (by decide), mem_insertHeader_ne (by decide),
        mem_insertHeader_ne (by decide)]
    exact mem_insertHeader_same.mpr rfl
  · simp only [addSecurityHeaders]
    rw [countP_insertHeader_ne (by decide), countP_insertHeader_ne (by decide)]
    exact countP_insertHeader_self _ _ _
  · simp only [addSecurityHeaders]
    rw [mem_insertHeader_ne (by decide), mem_insertHeader_ne (by decide)]
    exact mem_insertHeader_same.mpr rfl
  · simp only [addSecurityHeaders]
    rw [countP_insertHeader_ne (by decide)]
    exact countP_insertHeader_self _ _ _
  · simp only [addSecurityHeaders]
    rw [mem_insertHeader_ne (by decide)]
    exact mem_insertHeader_same.mpr rfl
  · simp only [addSecurityHeaders]
    exact countP_insertHeader_self _ _ _
  · simp only [addSecurityHeaders]
    exact mem_insertHeader_same.mpr rfl
  · intro n v hn
    simp only [securityHeaderNames, List.mem_cons, List.not_mem_nil, or_false] at hn
    push_neg at hn
    obtain ⟨h1, h2, h3, h4⟩ := hn
    simp only [addSecurityHeaders]
    rw [mem_insertHeader_ne h4, mem_insertHeader_ne h3, mem_insertHeader_ne h2,
        mem_insertHeader_ne h1]
    simp only [copyHeaders]
    rw [mem_copyHeaders_aux]
    simp

/-- Witness for C7: an upstream 201 response with `Content-Type:
text/plain` and its own `X-Frame-Options: ALLOWALL` header is relayed
with exactly one `x-frame-options`, valued `DENY`, and its
`content-type` kept verbatim. -/
theorem C7_witness :
    ([("content-type", strBytes "text/plain"),
      ("x-content-type-options", strBytes "nosniff"),
      ("x-frame-options", strBytes "DENY"),
      ("referrer-policy", strBytes "strict-origin-when-cross-origin"),
      ("x-xss-protection", strBytes "1; mode=block")] :
        List (String × List Nat)).countP (fun p => p.1 == "x-frame-options") = 1 ∧
    ("x-frame-options", strBytes "DENY") ∈
      ([("content-type", strBytes "text/plain"),
        ("x-content-type-options", strBytes "nosniff"),
        ("x-frame-options", strBytes "DENY"),
        ("referrer-policy", strBytes "strict-origin-when-cross-origin"),
        ("x-xss-protection", strBytes "1; mode=block")] : List (String × List Nat)) ∧
    (("content-type", strBytes "text/plain") ∈
        ([("content-type", strBytes "text/plain"),
          ("x-content-type-options", strBytes "nosniff"),
          ("x-frame-options", strBytes "DENY"),
          ("referrer-policy", strBytes "strict-origin-when-cross-origin"),
          ("x-xss-protection", strBytes "1; mode=block")] : List (String × List Nat)) ↔
      List.lookup "content-type"
        (keptHeaders [("content-type", strBytes "text/plain"),
                      ("x-frame-options", strBytes "ALLOWALL")]).reverse
        = some (strBytes "text/plain")) := by
  have h := C7_amended_ok
      ⟨201, [("content-type", strBytes "text/plain"), ("x-frame-options", strBytes "ALLOWALL")],
       .ok [7]⟩
      [7]
      ⟨201, [("content-type", strBytes "text/plain"),
             ("x-content-type-options", strBytes "nosniff"),
             ("x-frame-options", strBytes "DENY"),
             ("referrer-policy", strBytes "strict-origin-when-cross-origin"),
             ("x-xss-protection", strBytes "1; mode=block")], [7]⟩
      rfl (by decide)
  exact ⟨h.2.2.2.2.1, h.2.2.2.2.2.1,
    h.2.2.2.2.2.2.2.2.2.2 "content-type" (strBytes "text/plain") (by decide)⟩

/-- Counterexample to C7 as stated: two re-encodable upstream headers
with the same name `x-dup` are not both copied — `insert_header`
replaces, so only the later occurrence survives. -/
theorem C7_counterexample :
    handle_proxy_response ⟨200, [("x-dup", strBytes "1"), ("x-dup", strBytes "2")], .ok []⟩ =
      .ok ⟨200, [("x-dup", strBytes "2"),
                 ("x-content-type-options", strBytes "nosniff"),
                 ("x-frame-options", strBytes "DENY"),
                 ("referrer-policy", strBytes "strict-origin-when-cross-origin"),
                 ("x-xss-protection", strBytes "1; mode=block")], []⟩ ∧
    ("x-dup", strBytes "1") ∉
      ([("x-dup", strBytes "2"),
        ("x-content-type-options", strBytes "nosniff"),
        ("x-frame-options", strBytes "DENY"),
        ("referrer-policy", strBytes "strict-origin-when-cross-origin"),
        ("x-xss-protection", strBytes "1; mode=block")] : List (String × List Nat)) ∧
    headerNameOk "x-dup" = true ∧ headerValueToStrOk (strBytes "1") = true := by decide
